/-
Verification of the PPL productivity-agent core data pipeline.

Shallow embedding of the repository's Python source into Lean 4:
  * src/src/data.py      — aggregate_team_kpis, apply_team_size_filter,
                           prepare_rca_data, run_correlation (post-processing)
  * src/main.py          — _interactive_correlate signal classification
  * src/scripts/estimate_causal_managers.py
                         — _count_causal_signals, main (CSV resumability)

Modelling conventions:
  * pandas DataFrames become `List` of record structures; a NaN/null cell
    of a nullable numeric column becomes `Option ℚ`.
  * Python floats are modelled as rationals (ℚ); `round(x, d)` is modelled
    as round-half-to-even on `x * 10^d`, matching Python's rounding rule
    for exactly representable values.
  * Months/dates are abstracted to natural numbers already normalised to
    first-of-month (the source normalises with `to_period("M")`).
  * `DataFrame.sort_values` becomes a stable insertion sort over a boolean
    lexicographic comparator; string comparison is by Unicode code point,
    matching Python `str` ordering.
  * The ~27 KPI columns of `aggregate_team_kpis` are all processed by one
    uniform loop in the source; the embedding carries the three absolute
    (summed) columns and a representative subset of the rate/score columns
    (attrition_rate_pct, team_health_score, mobility_score), each handled
    by the same generic weighted-mean function the loop body implements.
-/
import Mathlib

namespace PplAgent

/-! ## Generic stable insertion sort over a boolean comparator

`DataFrame.sort_values` / Python `list.sort` are modelled by a stable
insertion sort.  (pandas' default quicksort is unstable, but every ordering
claim below concerns only the comparator-induced order, which is identical.) -/

def insertLe {α : Type} (le : α → α → Bool) (a : α) : List α → List α
  | [] => [a]
  | b :: l => if le a b then a :: b :: l else b :: insertLe le a l

def sortLe {α : Type} (le : α → α → Bool) : List α → List α
  | [] => []
  | a :: l => insertLe le a (sortLe le l)

/-! ## String comparison (Python code-point lexicographic order)

Python compares `str` values code point by code point; Lean's `Char.val`
is the Unicode scalar value, so this comparator coincides with Python's. -/

def charListLt : List Char → List Char → Bool
  | [], [] => false
  | [], _ :: _ => true
  | _ :: _, [] => false
  | a :: as, b :: bs =>
      if a.val < b.val then true
      else if b.val < a.val then false
      else charListLt as bs

def strLt (s t : String) : Bool := charListLt s.data t.data

def strLe (s t : String) : Bool := !(strLt t s)

/-! ## Python/pandas rounding

`round(x, d)` on a float rounds half to even.  We model it on ℚ. -/

def roundHalfEven (x : ℚ) : ℤ :=
  let f : ℤ := ⌊x⌋
  let r : ℚ := x - f
  if r < 1/2 then f
  else if 1/2 < r then f + 1
  else if f % 2 = 0 then f else f + 1

def roundTo (d : ℕ) (x : ℚ) : ℚ := (roundHalfEven (x * 10 ^ d) : ℚ) / 10 ^ d

/-! ## Data model: per-team monthly KPI rows (src/src/data.py)

One row per (month, organization_level_code, geo_code).  The absolute
columns (headcount, total_fte, exits_rolling_12m) are non-null numerics;
the rate/score KPI columns are nullable. -/

structure TeamRow where
  month : ℕ
  organization_level_code : String
  geo_code : String
  headcount : ℚ
  total_fte : ℚ
  exits_rolling_12m : ℚ
  attrition_rate_pct : Option ℚ
  team_health_score : Option ℚ
  mobility_score : Option ℚ
deriving DecidableEq, Repr

/-- The distinct months of a table, ascending — `data.groupby("month")`
iterates group keys in sorted order, and `aggregate_team_kpis` finally
sorts its output by month. -/
def monthsSorted (data : List TeamRow) : List ℕ :=
  sortLe (fun a b => decide (a ≤ b)) ((data.map (·.month)).dedup)

/-- The rows of one month group: `grp` in `data.groupby("month")`. -/
def monthGroup (data : List TeamRow) (m : ℕ) : List TeamRow :=
  data.filter (fun r => decide (r.month = m))

/-- Body of the per-KPI-column loop of `aggregate_team_kpis`
(src/src/data.py lines 85–91):

    valid = grp[[c, "headcount"]].dropna(subset=[c])
    if len(valid) == 0 or total_hc == 0:
        row[c] = None
    else:
        row[c] = round(float((valid[c] * valid["headcount"]).sum()) / total_hc, 2)

Note that the denominator `total_hc` is the headcount sum over the whole
month group, not over `valid`. -/
def weightedKpi (grp : List TeamRow) (get : TeamRow → Option ℚ) : Option ℚ :=
  let totalHc : ℚ := (grp.map (·.headcount)).sum
  let valid := grp.filter (fun r => (get r).isSome)
  if valid.isEmpty || totalHc = 0 then none
  else some (roundTo 2 ((valid.map (fun r => ((get r).getD 0) * r.headcount)).sum / totalHc))

/-- One aggregate output row of `aggregate_team_kpis` for month `m` with
month group `grp`: sums for absolute columns, `weightedKpi` for the KPI
columns, and the attrition recomputation of lines 93–95:

    if "exits_rolling_12m" in row and total_hc > 0:
        row["attrition_rate_pct"] = round(row["exits_rolling_12m"] * 100.0 / total_hc, 1)
-/
def aggMonth (m : ℕ) (grp : List TeamRow) : TeamRow :=
  let totalHc : ℚ := (grp.map (·.headcount)).sum
  let exitsSum : ℚ := (grp.map (·.exits_rolling_12m)).sum
  { month := m
    organization_level_code := "ALL"
    geo_code := "ALL"
    headcount := totalHc
    total_fte := (grp.map (·.total_fte)).sum
    exits_rolling_12m := exitsSum
    attrition_rate_pct :=
      if 0 < totalHc then some (roundTo 1 (exitsSum * 100 / totalHc))
      else weightedKpi grp (·.attrition_rate_pct)
    team_health_score := weightedKpi grp (·.team_health_score)
    mobility_score := weightedKpi grp (·.mobility_score) }

/-- `aggregate_team_kpis` (src/src/data.py lines 42–107): empty input is
returned unchanged; otherwise one aggregate row per month, sorted by month. -/
def aggregate_team_kpis (data : List TeamRow) : List TeamRow :=
  if data.isEmpty then []
  else (monthsSorted data).map (fun m => aggMonth m (monthGroup data m))

/-! ## Team-size filter (src/src/data.py lines 110–162) -/

/-- A row of the combined output of `apply_team_size_filter`: the original
columns plus the display column `team_label`. -/
structure LabeledRow where
  team_label : String
  row : TeamRow
deriving DecidableEq, Repr

/-- `team_data["organization_level_code"] + " · " + team_data["geo_code"]`. -/
def teamLabel (r : TeamRow) : String :=
  r.organization_level_code ++ " · " ++ r.geo_code

/-- `data["month"].max()`. -/
def latestMonth (data : List TeamRow) : ℕ :=
  (data.map (·.month)).foldr max 0

/-- `latest[latest["headcount"] >= min_headcount][["organization_level_code",
"geo_code"]].drop_duplicates()` where `latest = data[data["month"] == latest_month]`. -/
def qualifyingTeams (data : List TeamRow) (min_headcount : ℚ) : List (String × String) :=
  (((data.filter (fun r => decide (r.month = latestMonth data))).filter
      (fun r => decide (min_headcount ≤ r.headcount))).map
    (fun r => (r.organization_level_code, r.geo_code))).dedup

/-- The final `sort_values(["team_label", "organization_level_code",
"geo_code", "month"])` comparator. -/
def combinedLe (a b : LabeledRow) : Bool :=
  if strLt a.team_label b.team_label then true
  else if strLt b.team_label a.team_label then false
  else if strLt a.row.organization_level_code b.row.organization_level_code then true
  else if strLt b.row.organization_level_code a.row.organization_level_code then false
  else if strLt a.row.geo_code b.row.geo_code then true
  else if strLt b.row.geo_code a.row.geo_code then false
  else a.row.month ≤ b.row.month

/-- `apply_team_size_filter` (src/src/data.py lines 110–162): empty input
returned unchanged; aggregate rows labelled "ALL"; teams qualifying by
latest-month headcount keep their full history; if no team qualifies only
the aggregate is returned (unsorted, already month-ascending); otherwise
the concatenation is sorted by (team_label, org, geo, month). -/
def apply_team_size_filter (data : List TeamRow) (min_headcount : ℚ) : List LabeledRow :=
  if data.isEmpty then []
  else
    let agg := (aggregate_team_kpis data).map (fun r => LabeledRow.mk "ALL" r)
    let q := qualifyingTeams data min_headcount
    if q.isEmpty then agg
    else
      let team_data := data.filter
        (fun r => decide ((r.organization_level_code, r.geo_code) ∈ q))
      let labeled := team_data.map (fun r => LabeledRow.mk (teamLabel r) r)
      sortLe combinedLe (agg ++ labeled)

/-- The set (as a list) of teams shown individually by the filter: the
(org, geo) pairs of output rows whose label is not "ALL". -/
def shownTeams (data : List TeamRow) (min_headcount : ℚ) : List (String × String) :=
  ((apply_team_size_filter data min_headcount).filter
      (fun lr => decide (lr.team_label ≠ "ALL"))).map
    (fun lr => (lr.row.organization_level_code, lr.row.geo_code))

/-! ## RCA data preparation (src/src/data.py lines 717–807) -/

/-- One raw domain-KPI row (`load_manager_domain_kpis` output): kpi_code,
source tag ("domain" | "country_org" | "bu_aggregate"), date (already
normalised to a month index) and nullable value. -/
structure DomainRow where
  kpi_code : String
  source : String
  date : ℕ
  value : Option ℚ
deriving DecidableEq, Repr

/-- Effect-table selection: `bu_agg = domain_df[domain_df["source"] ==
"bu_aggregate"]`, falling back to `source == "domain"` when empty. -/
def effectSelect (domain : List DomainRow) : List DomainRow :=
  let buAgg := domain.filter (fun d => decide (d.source = "bu_aggregate"))
  if buAgg.isEmpty then domain.filter (fun d => decide (d.source = "domain"))
  else buAgg

/-- `drop_duplicates` keeping the first row per key. -/
def dedupByKey {α β : Type} [DecidableEq β] (key : α → β) : List α → List α
  | [] => []
  | a :: l => a :: dedupByKey key (l.filter (fun b => decide (key b ≠ key a)))
termination_by l => l.length
decreasing_by
  simp only [List.length_cons]
  exact Nat.lt_succ_of_le (List.length_filter_le _ _)

/-- Comparator for `mother_df.sort_values(["id_kpi_code", "date_col"])`. -/
def motherLe (a b : String × ℕ × ℚ) : Bool :=
  if strLt a.1 b.1 then true
  else if strLt b.1 a.1 then false
  else a.2.1 ≤ b.2.1

/-- Result of `prepare_rca_data`: the cleaned mother (effect) table rows
(id_kpi_code, date_col, value_col) and the node tables, one per retained
PPL KPI name with its (date_col, value_col) series.  The constant `id_all
= "ALL"` link column and the per-node config boilerplate carry no
information and are not modelled; both early-return paths of the source
produce a config with no node tables and an empty frame dict, modelled as
`⟨[], []⟩`. -/
structure RcaPrep where
  mother : List (String × ℕ × ℚ)
  node_tables : List (String × List (ℕ × ℚ))
deriving DecidableEq, Repr

/-- The modelled slice of `PPL_CORRELATABLE_KPIS` (src/src/config.py):
those allow-listed columns that the embedding's `TeamRow` carries. -/
def pplCorrelatableModeled : List String :=
  ["headcount", "attrition_rate_pct", "team_health_score", "mobility_score"]

/-- Column lookup on an aggregate row (the source iterates column names). -/
def colValue (r : TeamRow) : String → Option ℚ
  | "headcount" => some r.headcount
  | "attrition_rate_pct" => r.attrition_rate_pct
  | "team_health_score" => r.team_health_score
  | "mobility_score" => r.mobility_score
  | _ => none

/-- One candidate-cause series: `agg[["date_col", kpi_col]].rename(...)
.dropna(subset=["value_col"]).sort_values("date_col")` — `agg` is already
month-ascending, so dropping nulls preserves sortedness. -/
def nodeSeries (agg : List TeamRow) (c : String) : List (ℕ × ℚ) :=
  agg.filterMap (fun r => (colValue r c).map (fun v => (r.month, v)))

/-- `prepare_rca_data` (src/src/data.py lines 717–807).  Mother: select
effect rows, drop null values, deduplicate on (kpi_code, date) keeping the
first, sort by (kpi_code, date).  Nodes: aggregate the PPL table, build one
series per allow-listed column, and keep it only when it has at least 7
observations after cleaning (`if len(node_df) < 7: continue`).  Both "no
effect rows" and "no aggregated PPL rows" return the empty preparation
(the source logs a warning and returns a no-node config — it does not raise). -/
def prepare_rca_data (ppl : List TeamRow) (domain : List DomainRow) : RcaPrep :=
  let buAgg := effectSelect domain
  if buAgg.isEmpty then ⟨[], []⟩
  else
    let mother := sortLe motherLe (dedupByKey (fun e => (e.1, e.2.1))
      (buAgg.filterMap (fun d => d.value.map (fun v => (d.kpi_code, d.date, v)))))
    let agg := aggregate_team_kpis ppl
    if agg.isEmpty then ⟨[], []⟩
    else
      ⟨mother,
       (pplCorrelatableModeled.filter (fun c => 7 ≤ (nodeSeries agg c).length)).map
         (fun c => (c, nodeSeries agg c))⟩

/-! ## Correlation result post-processing (src/src/data.py lines 810–861)

The heavy statistical work (`RootCauseAnalysis.rca_calculation`, from the
external `aily_ai_correlator` package) is outside this repository; the
repository's own contribution in `run_correlation` is the preparation
above plus the final sorting of whatever result table the library returns.
A `ResultRow` models one returned row; `run_correlation_post` models the
code applied to `rca_calculation`'s output. -/

structure ResultRow where
  id_kpi_code : String
  kpi : String
  min_p_value : ℚ
  transfer_entropy : ℚ
  explained_entropy : Option ℚ
  lag : ℕ
deriving DecidableEq, Repr

/-- Descending order on explained entropy with NaN (`none`) placed last,
as pandas does for a descending sort key. -/
def eeDescLe : Option ℚ → Option ℚ → Bool
  | none, none => true
  | none, some _ => false
  | some _, none => true
  | some x, some y => y ≤ x

/-- Comparator for `result.sort_values(["id_kpi_code", "min_p_value",
"explained_entropy"], ascending=[True, True, False])`: effect code
ascending, then p-value ascending, then explained entropy descending. -/
def resultLe (a b : ResultRow) : Bool :=
  if strLt a.id_kpi_code b.id_kpi_code then true
  else if strLt b.id_kpi_code a.id_kpi_code then false
  else if a.min_p_value < b.min_p_value then true
  else if b.min_p_value < a.min_p_value then false
  else eeDescLe a.explained_entropy b.explained_entropy

/-- The tail of `run_correlation`: `if len(result) > 0: result =
result.sort_values(...)` — the empty result is passed through. -/
def run_correlation_post (result : List ResultRow) : List ResultRow :=
  if result.isEmpty then [] else sortLe resultLe result

/-! ## Signal-strength classification

src/main.py `_interactive_correlate` lines 583–589:

    if ee > 0.3: signal = "***"
    elif ee > 0.1: signal = "** "
    else: signal = "*  "

A float NaN compares false on both tests, so an undefined explained
entropy falls through to "*"; NaN is modelled as `none` and the padding
spaces of the display strings are dropped. -/

/-- Python `ee > t` where `ee` may be NaN: NaN comparisons are false. -/
def eeGT (ee : Option ℚ) (t : ℚ) : Bool :=
  match ee with
  | none => false
  | some v => decide (t < v)

def interactiveSignal (ee : Option ℚ) : String :=
  if eeGT ee (3/10) then "***"
  else if eeGT ee (1/10) then "**"
  else "*"

/-- `ee.fillna(-1)` from `_count_causal_signals`
(src/scripts/estimate_causal_managers.py lines 58–69). -/
def fillNegOne (ee : Option ℚ) : ℚ := ee.getD (-1)

/-- `_count_causal_signals`: per-tier pair counts
`(N*, N**, N***) = ((ee<=0.1).sum(), ((ee>0.1)&(ee<=0.3)).sum(), (ee>0.3).sum())`
after `fillna(-1)`. -/
def countCausalSignals (ees : List (Option ℚ)) : ℕ × ℕ × ℕ :=
  ((ees.filter (fun e => decide (fillNegOne e ≤ 1/10))).length,
   (ees.filter (fun e => decide (1/10 < fillNegOne e) && decide (fillNegOne e ≤ 3/10))).length,
   (ees.filter (fun e => decide (3/10 < fillNegOne e))).length)

/-! ## Batch-estimator CSV resumability
(src/scripts/estimate_causal_managers.py, `main`, lines 300–316 and 358–407)

One output row per manager is modelled by its full identifier plus an
opaque status; the per-manager pipeline `_process_one_manager` (profile,
data loading, RCA) is abstracted as a function `process` from a manager
code to its row — the resumability logic under verification treats it as
a black box. -/

structure MgrRow where
  manager_code_full : String
  status : String
deriving DecidableEq, Repr

/-- `existing_codes = {r["manager_code_full"] for r in existing_rows if
r.get("manager_code_full")}` — falsy (empty) identifiers are excluded. -/
def existingCodes (rows : List MgrRow) : List String :=
  (rows.filter (fun r => decide (r.manager_code_full ≠ ""))).map (·.manager_code_full)

/-- `manager_codes = [mc for mc in all_manager_codes if mc not in existing_codes]`. -/
def batchTodo (allCodes : List String) (existing : List MgrRow) : List String :=
  allCodes.filter (fun c => decide (c ∉ existingCodes existing))

/-- `rows.sort(key=lambda r: r.get("manager_code_full", ""))`. -/
def mgrLe (a b : MgrRow) : Bool := strLe a.manager_code_full b.manager_code_full

/-- One run of the batch estimator main loop with an output file: process
the not-yet-persisted managers, merge with the existing rows, and sort by
full manager identifier — the list finally written back to the CSV. -/
def runBatch (allCodes : List String) (existing : List MgrRow)
    (process : String → MgrRow) : List MgrRow :=
  sortLe mgrLe (existing ++ (batchTodo allCodes existing).map process)

/-! ## Spec-side definitions and concrete inputs used by the claim theorems -/

/-- The weighted mean exactly as claim C1 words it: teams with a missing
value are excluded from BOTH the numerator and the denominator, and the
result is null when that (valid-only) denominator is zero or no valid row
exists.  Stated from the spec for comparison with `weightedKpi`, which is
what the source actually computes. -/
def weightedKpiSpecC1 (grp : List TeamRow) (get : TeamRow → Option ℚ) : Option ℚ :=
  let valid := grp.filter (fun r => (get r).isSome)
  let validHc : ℚ := (valid.map (·.headcount)).sum
  if valid.isEmpty || validHc = 0 then none
  else some ((valid.map (fun r => ((get r).getD 0) * r.headcount)).sum / validHc)

/-- The weighted mean as the amended claim C1 words it: teams with a
missing value contribute zero to the numerator (excluded from the
numerator only); the denominator is the total headcount of ALL teams of
the month; the result is null when the total headcount is zero or no team
has a valid value; the quotient is rounded to two decimals. -/
def weightedKpiAmended (grp : List TeamRow) (get : TeamRow → Option ℚ) : Option ℚ :=
  let den : ℚ := (grp.map (·.headcount)).sum
  if (grp.filter (fun r => (get r).isSome)).isEmpty || den = 0 then none
  else
    some (roundTo 2
      ((grp.map (fun r =>
          match get r with
          | some v => v * r.headcount
          | none => 0)).sum / den))

/-- C1 counterexample input: one month, two equally sized teams, only the
first with a team_health_score. -/
def cexC1 : List TeamRow :=
  [⟨1, "T1", "G", 10, 10, 0, none, some 50, none⟩,
   ⟨1, "T2", "G", 10, 10, 0, none, none, none⟩]

/-- C2 witness input: per-team attrition_rate_pct values (99 and 1) that
are wildly inconsistent with the exits/headcount figures, so the plain
mean and the headcount-weighted mean (both 50) differ from the recomputed
aggregate value 100·Σexits/Σheadcount = 10. -/
def wC2 : List TeamRow :=
  [⟨1, "T1", "G", 10, 10, 2, some 99, none, none⟩,
   ⟨1, "T2", "H", 10, 10, 0, some 1, none, none⟩]

/-- C2 counterexample input: one team, exits 1 of headcount 30 — the
exact quotient 100·1/30 = 10/3 is not representable in one decimal. -/
def cexC2 : List TeamRow :=
  [⟨1, "T", "G", 30, 30, 1, none, none, none⟩]

/-- C3 failing input: a single qualifying team whose label "AB · X" sorts
lexicographically before "ALL". -/
def cexC3 : List TeamRow :=
  [⟨1, "AB", "X", 10, 10, 0, none, some 50, none⟩]

/-- C4 witness input: two teams of headcount 10 and 3 in the same month. -/
def wC4 : List TeamRow :=
  [⟨1, "T1", "G", 10, 10, 0, none, some 50, none⟩,
   ⟨1, "T2", "G", 3, 3, 0, none, some 20, none⟩]

/-- C5 witness input: seven months of one team; team_health_score is
non-null in all 7 months, mobility_score only in the first 6. -/
def wC5ppl : List TeamRow :=
  [⟨1, "T", "G", 10, 10, 0, some 5, some 50, some 20⟩,
   ⟨2, "T", "G", 10, 10, 0, some 5, some 51, some 21⟩,
   ⟨3, "T", "G", 10, 10, 0, some 5, some 52, some 22⟩,
   ⟨4, "T", "G", 10, 10, 0, some 5, some 53, some 23⟩,
   ⟨5, "T", "G", 10, 10, 0, some 5, some 54, some 24⟩,
   ⟨6, "T", "G", 10, 10, 0, some 5, some 55, some 25⟩,
   ⟨7, "T", "G", 10, 10, 0, some 5, some 56, none⟩]

/-- C5 witness effect table: one business-unit-aggregate row. -/
def wC5dom : List DomainRow := [⟨"MNSK", "bu_aggregate", 1, some 1⟩]

/-- C7 example rows from the spec's ranking property:
(KPI_A, p=0.01), (KPI_A, p=0.03), (KPI_B, p=0.2). -/
def rA01 : ResultRow := ⟨"KPI_A", "pplX", 1/100, 1/10, some (1/10), 1⟩

def rA03 : ResultRow := ⟨"KPI_A", "pplY", 3/100, 1/10, some (2/10), 2⟩

def rB05 : ResultRow := ⟨"KPI_B", "pplZ", 2/10, 1/10, some (5/10), 3⟩

/-- C8 counterexample PPL input: a normal non-empty team table. -/
def cexC8ppl : List TeamRow :=
  [⟨1, "T", "G", 10, 10, 0, none, some 50, none⟩]

/-- C8 counterexample domain input: non-empty, but with no
business-unit-aggregate row and no per-cluster ("domain") row. -/
def cexC8dom : List DomainRow := [⟨"OTIF", "country_org", 1, some 3⟩]

/-- C9 witness per-manager pipeline: a stub that records the manager code
with status "ok". -/
def wC9process : String → MgrRow := fun c => ⟨c, "ok"⟩

/-! ## Lemmas about the sorting infrastructure -/

theorem insertLe_perm {α : Type} (le : α → α → Bool) (a : α) (l : List α) :
    (insertLe le a l).Perm (a :: l) := by
  induction l with
  | nil => simp [insertLe]
  | cons b l ih =>
      simp only [insertLe]
      by_cases h : le a b = true
      · simp [h]
      · simp only [h, if_false]
        exact (ih.cons b).trans (List.Perm.swap a b l)

theorem sortLe_perm {α : Type} (le : α → α → Bool) (l : List α) :
    (sortLe le l).Perm l := by
  induction l with
  | nil => simp [sortLe]
  | cons a l ih =>
      simp only [sortLe]
      exact (insertLe_perm le a (sortLe le l)).trans (ih.cons a)

theorem mem_sortLe {α : Type} {le : α → α → Bool} {x : α} {l : List α} :
    x ∈ sortLe le l ↔ x ∈ l :=
  (sortLe_perm le l).mem_iff

theorem mem_insertLe {α : Type} {le : α → α → Bool} {x a : α} {l : List α} :
    x ∈ insertLe le a l ↔ x = a ∨ x ∈ l := by
  rw [(insertLe_perm le a l).mem_iff, List.mem_cons]

theorem pairwise_insertLe {α : Type} {le : α → α → Bool}
    (htot : ∀ a b, le a b = true ∨ le b a = true)
    (htrans : ∀ a b c, le a b = true → le b c = true → le a c = true)
    (a : α) {l : List α} (h : l.Pairwise (fun x y => le x y = true)) :
    (insertLe le a l).Pairwise (fun x y => le x y = true) := by
  induction l with
  | nil => simp [insertLe]
  | cons b l ih =>
      rcases List.pairwise_cons.1 h with ⟨hb, hl⟩
      simp only [insertLe]
      by_cases hab : le a b = true
      · rw [if_pos hab]
        refine List.pairwise_cons.2 ⟨?_, h⟩
        intro c hc
        rcases List.mem_cons.1 hc with rfl | hc
        · exact hab
        · exact htrans a b c hab (hb c hc)
      · rw [if_neg hab]
        refine List.pairwise_cons.2 ⟨?_, ih hl⟩
        intro c hc
        rcases mem_insertLe.1 hc with hca | hc
        · rw [hca]
          rcases htot a b with h1 | h1
          · exact absurd h1 hab
          · exact h1
        · exact hb c hc

theorem pairwise_sortLe {α : Type} {le : α → α → Bool}
    (htot : ∀ a b, le a b = true ∨ le b a = true)
    (htrans : ∀ a b c, le a b = true → le b c = true → le a c = true)
    (l : List α) :
    (sortLe le l).Pairwise (fun x y => le x y = true) := by
  induction l with
  | nil => simp [sortLe]
  | cons a l ih => exact pairwise_insertLe htot htrans a ih

/-! ## Lemmas about the month grouping of `aggregate_team_kpis` -/

theorem mem_monthsSorted {data : List TeamRow} {m : ℕ} :
    m ∈ monthsSorted data ↔ m ∈ data.map (·.month) := by
  unfold monthsSorted
  rw [mem_sortLe, List.mem_dedup]

theorem nodup_monthsSorted (data : List TeamRow) : (monthsSorted data).Nodup := by
  unfold monthsSorted
  exact (sortLe_perm _ _).symm.nodup (List.nodup_dedup _)

theorem monthsSorted_ne_nil {data : List TeamRow} (h : data ≠ []) :
    monthsSorted data ≠ [] := by
  rcases data with _ | ⟨r, rest⟩
  · exact absurd rfl h
  · intro hnil
    have : r.month ∈ monthsSorted (r :: rest) :=
      mem_monthsSorted.2 (by simp)
    rw [hnil] at this
    exact absurd this (List.not_mem_nil _)

theorem aggregate_eq_map {data : List TeamRow} (h : data ≠ []) :
    aggregate_team_kpis data
      = (monthsSorted data).map (fun m => aggMonth m (monthGroup data m)) := by
  unfold aggregate_team_kpis
  rw [if_neg (by simpa using h)]

theorem aggMonth_month (m : ℕ) (grp : List TeamRow) : (aggMonth m grp).month = m := rfl

theorem aggregate_ne_nil {data : List TeamRow} (h : data ≠ []) :
    aggregate_team_kpis data ≠ [] := by
  rw [aggregate_eq_map h]
  simpa using monthsSorted_ne_nil h

/-- Auxiliary: filtering a map of per-month aggregate rows over a
duplicate-free month list down to one month yields exactly that month's row. -/
theorem filter_month_map (data : List TeamRow) (m : ℕ) :
    ∀ ms : List ℕ, ms.Nodup → m ∈ ms →
      ((ms.map (fun m' => aggMonth m' (monthGroup data m'))).filter
          (fun r => decide (r.month = m)))
        = [aggMonth m (monthGroup data m)] := by
  intro ms
  induction ms with
  | nil => intro _ hm; exact absurd hm (List.not_mem_nil m)
  | cons a ms ih =>
      intro hnd hm
      rcases List.nodup_cons.1 hnd with ⟨ha, hnd'⟩
      rcases List.mem_cons.1 hm with rfl | hm'
      · simp only [List.map_cons, List.filter_cons, aggMonth_month, decide_True,
          if_true, List.cons.injEq, true_and]
        refine List.filter_eq_nil_iff.2 ?_
        intro x hx
        rcases List.mem_map.1 hx with ⟨m', hm', rfl⟩
        simp only [aggMonth_month, decide_eq_true_eq]
        intro hcontr
        exact ha (hcontr ▸ hm')
      · have hne : a ≠ m := by
          intro h
          exact ha (h ▸ hm')
        simp only [List.map_cons, List.filter_cons, aggMonth_month]
        rw [if_neg (by simpa using hne)]
        exact ih hnd' hm'

/-- Filtering the aggregate table to one month present in the data yields
exactly its aggregate row. -/
theorem aggregate_filter_month {data : List TeamRow} {m : ℕ}
    (hm : m ∈ monthsSorted data) :
    (aggregate_team_kpis data).filter (fun r => decide (r.month = m))
      = [aggMonth m (monthGroup data m)] := by
  have hdata : data ≠ [] := by
    intro h
    subst h
    have : m ∈ ([] : List TeamRow).map (·.month) := mem_monthsSorted.1 hm
    simp at this
  rw [aggregate_eq_map hdata]
  exact filter_month_map data m (monthsSorted data) (nodup_monthsSorted data) hm

/-! ## Claim C1 — weighted mean of rate/score KPI columns -/

/-- The numerator restricted to valid rows equals the all-rows sum with
missing values contributing zero. -/
theorem sum_weighted_filter (grp : List TeamRow) (get : TeamRow → Option ℚ) :
    ((grp.filter (fun r => (get r).isSome)).map
        (fun r => ((get r).getD 0) * r.headcount)).sum
      = (grp.map (fun r =>
          match get r with
          | some v => v * r.headcount
          | none => 0)).sum := by
  induction grp with
  | nil => rfl
  | cons r l ih =>
      cases h : get r with
      | none => simp [List.filter_cons, h, ih]
      | some v => simp [List.filter_cons, h, ih]

theorem weightedKpi_eq_amended (grp : List TeamRow) (get : TeamRow → Option ℚ) :
    weightedKpi grp get = weightedKpiAmended grp get := by
  simp only [weightedKpi, weightedKpiAmended]
  rw [sum_weighted_filter]

/-- C1 (amended): for every input table, each rate/score KPI column of the
aggregate (here the modelled columns team_health_score and mobility_score)
is the rounded quotient of the value×headcount sum over teams with a
non-null value by the month's TOTAL headcount — teams with a missing value
are excluded from the numerator only — and is null when the total
headcount is zero or no team has a valid value. -/
theorem c1_weighted_mean_amended (data : List TeamRow) :
    (aggregate_team_kpis data).map (·.team_health_score)
        = (monthsSorted data).map
            (fun m => weightedKpiAmended (monthGroup data m) (·.team_health_score))
    ∧ (aggregate_team_kpis data).map (·.mobility_score)
        = (monthsSorted data).map
            (fun m => weightedKpiAmended (monthGroup data m) (·.mobility_score)) := by
  by_cases h : data = []
  · subst h
    exact ⟨rfl, rfl⟩
  · rw [aggregate_eq_map h]
    constructor <;>
      · rw [List.map_map]
        exact List.map_congr_left (fun m _ => weightedKpi_eq_amended (monthGroup data m) _)

/-- C1 counterexample: with two equal-headcount teams and only one valid
team_health_score, the source computes 50·10/20 = 25 (denominator: total
headcount), while the claim's formula — missing teams excluded from the
denominator as well — yields 50·10/10 = 50. -/
theorem c1_counterexample :
    (aggregate_team_kpis cexC1).map (·.team_health_score) = [some 25]
    ∧ weightedKpiSpecC1 cexC1 (·.team_health_score) = some 50
    ∧ ¬ ((aggregate_team_kpis cexC1).map (·.team_health_score)
          = [weightedKpiSpecC1 cexC1 (·.team_health_score)]) := by
  refine ⟨?_, ?_, ?_⟩ <;>
    norm_num [aggregate_team_kpis, monthsSorted, monthGroup, aggMonth, weightedKpi,
      weightedKpiSpecC1, roundTo, roundHalfEven, sortLe, insertLe, cexC1, List.dedup]

/-! ## Claim C2 — aggregate attrition is recomputed from sums -/

/-- C2 (amended): for every table and every month with positive total
headcount, the (unique) aggregate row of that month carries
attrition_rate_pct = round₁(Σexits · 100 / Σheadcount) computed from the
month's summed exits_rolling_12m and headcount — never a mean of per-team
rates; the weighted-mean branch is overridden. -/
theorem c2_attrition_recomputed (data : List TeamRow) (m : ℕ)
    (hm : m ∈ monthsSorted data)
    (hhc : 0 < ((monthGroup data m).map (·.headcount)).sum) :
    ((aggregate_team_kpis data).filter (fun r => decide (r.month = m))).map
        (·.attrition_rate_pct)
      = [some (roundTo 1 (((monthGroup data m).map (·.exits_rolling_12m)).sum * 100
          / ((monthGroup data m).map (·.headcount)).sum))] := by
  rw [aggregate_filter_month hm]
  simp only [List.map_cons, List.map_nil, aggMonth]
  rw [if_pos hhc]

/-- C2 witness: on `wC2` the aggregate value is 10 = round₁(2·100/20),
while both the headcount-weighted mean and the plain mean of the per-team
attrition rates are 50. -/
theorem c2_attrition_recomputed_witness :
    (1 ∈ monthsSorted wC2)
    ∧ (0 < ((monthGroup wC2 1).map (·.headcount)).sum)
    ∧ ((aggregate_team_kpis wC2).filter (fun r => decide (r.month = 1))).map
          (·.attrition_rate_pct)
        = [some (roundTo 1 (((monthGroup wC2 1).map (·.exits_rolling_12m)).sum * 100
            / ((monthGroup wC2 1).map (·.headcount)).sum))]
    ∧ roundTo 1 (((monthGroup wC2 1).map (·.exits_rolling_12m)).sum * 100
          / ((monthGroup wC2 1).map (·.headcount)).sum) = 10
    ∧ weightedKpi wC2 (·.attrition_rate_pct) = some 50
    ∧ ((wC2.filterMap (·.attrition_rate_pct)).sum
          / ((wC2.filterMap (·.attrition_rate_pct)).length : ℚ)) = 50 :=
  ⟨by decide,
   by norm_num [monthGroup, wC2],
   c2_attrition_recomputed wC2 1 (by decide) (by norm_num [monthGroup, wC2]),
   by norm_num [monthGroup, wC2, roundTo, roundHalfEven],
   by norm_num [weightedKpi, wC2, roundTo, roundHalfEven],
   by norm_num [wC2, List.filterMap_cons, List.filterMap_nil]⟩

/-- C2 counterexample: the aggregate attrition value is the source's
round-to-one-decimal 3.3, not the exact quotient 100·Σexits/Σheadcount
= 10/3 the claim states. -/
theorem c2_counterexample :
    (aggregate_team_kpis cexC2).map (·.attrition_rate_pct) = [some (33/10)]
    ∧ ((cexC2.map (·.exits_rolling_12m)).sum * 100
        / (cexC2.map (·.headcount)).sum) = 10/3
    ∧ (33/10 : ℚ) ≠ 10/3 := by
  have hfract : Int.fract ((100 : ℚ) / 3) = 1/3 := by
    unfold Int.fract
    norm_num
  refine ⟨?_, ?_, ?_⟩ <;>
    norm_num [aggregate_team_kpis, monthsSorted, monthGroup, aggMonth, weightedKpi,
      roundTo, roundHalfEven, hfract, sortLe, insertLe, cexC2, List.dedup]

/-! ## Claim C10 — empty-input behavior -/

/-- C10: on an empty table both `aggregate_team_kpis` and
`apply_team_size_filter` return the empty table unchanged (no aggregate
"ALL" row, no failure). -/
theorem c10_empty_input :
    aggregate_team_kpis [] = []
    ∧ ∀ t : ℚ, apply_team_size_filter [] t = [] :=
  ⟨rfl, fun _ => rfl⟩

/-! ## Lemmas about `apply_team_size_filter` -/

theorem string_eq_empty_of_length {s : String} (h : s.length = 0) : s = "" := by
  cases s with
  | mk data =>
      cases data with
      | nil => rfl
      | cons a l => simp [String.length] at h

/-- An individual team's label always contains " · ", so it can never be
the aggregate label "ALL". -/
theorem teamLabel_ne_ALL (r : TeamRow) : teamLabel r ≠ "ALL" := by
  intro h
  have hlen := congrArg String.length h
  simp only [teamLabel, String.length_append] at hlen
  rw [show (" · " : String).length = 3 from rfl,
      show ("ALL" : String).length = 3 from rfl] at hlen
  have ho : r.organization_level_code = "" :=
    string_eq_empty_of_length (by omega)
  have hg : r.geo_code = "" := string_eq_empty_of_length (by omega)
  simp only [teamLabel, ho, hg] at h
  exact absurd h (by decide)

theorem qualifyingTeams_mono {data : List TeamRow} {t1 t2 : ℚ} (h : t1 ≤ t2)
    {p : String × String} (hp : p ∈ qualifyingTeams data t2) :
    p ∈ qualifyingTeams data t1 := by
  unfold qualifyingTeams at hp ⊢
  rw [List.mem_dedup] at hp ⊢
  rcases List.mem_map.1 hp with ⟨r, hr, rfl⟩
  rcases List.mem_filter.1 hr with ⟨hr1, hr2⟩
  exact List.mem_map_of_mem _ (List.mem_filter.2
    ⟨hr1, decide_eq_true (le_trans h (of_decide_eq_true hr2))⟩)

theorem mem_apply_of_team {data : List TeamRow} {t : ℚ} {r : TeamRow}
    (hr : r ∈ data)
    (hq : (r.organization_level_code, r.geo_code) ∈ qualifyingTeams data t) :
    LabeledRow.mk (teamLabel r) r ∈ apply_team_size_filter data t := by
  have hdata : data ≠ [] := List.ne_nil_of_mem hr
  have hqne : qualifyingTeams data t ≠ [] := List.ne_nil_of_mem hq
  simp only [apply_team_size_filter]
  rw [if_neg (by simpa using hdata), if_neg (by simpa using hqne)]
  refine mem_sortLe.2 (List.mem_append_right _ ?_)
  exact List.mem_map_of_mem _ (List.mem_filter.2 ⟨hr, decide_eq_true hq⟩)

theorem team_of_mem_apply {data : List TeamRow} {t : ℚ} {lr : LabeledRow}
    (h : lr ∈ apply_team_size_filter data t) (hlab : lr.team_label ≠ "ALL") :
    lr.row ∈ data
      ∧ (lr.row.organization_level_code, lr.row.geo_code) ∈ qualifyingTeams data t
      ∧ lr.team_label = teamLabel lr.row := by
  by_cases hdata : data = []
  · subst hdata
    simp [apply_team_size_filter] at h
  · simp only [apply_team_size_filter] at h
    rw [if_neg (by simpa using hdata)] at h
    by_cases hq : qualifyingTeams data t = []
    · rw [if_pos (by simpa using hq)] at h
      rcases List.mem_map.1 h with ⟨r, _, rfl⟩
      exact absurd rfl hlab
    · rw [if_neg (by simpa using hq)] at h
      rcases List.mem_append.1 (mem_sortLe.1 h) with hagg | hteam
      · rcases List.mem_map.1 hagg with ⟨r, _, rfl⟩
        exact absurd rfl hlab
      · rcases List.mem_map.1 hteam with ⟨r, hrf, rfl⟩
        rcases List.mem_filter.1 hrf with ⟨hrd, hrq⟩
        exact ⟨hrd, of_decide_eq_true hrq, rfl⟩

/-! ## Claim C3 — the aggregate rows do not always come first -/

/-- C3 (code defect exhibit): the source concatenates aggregate rows first
but then re-sorts by `team_label`, and "AB · X" < "ALL" in code-point
order — so for a qualifying team labelled "AB · X" the individual team row
precedes the aggregate row, contradicting both the claim and the
function's own docstring ("aggregate rows first"). -/
theorem c3_team_sorts_before_aggregate :
    (apply_team_size_filter cexC3 5).map (·.team_label) = ["AB · X", "ALL"]
    ∧ ((apply_team_size_filter cexC3 5).map (·.team_label)).head? ≠ some "ALL" := by
  constructor <;> decide

/-! ## Claim C4 — threshold monotonicity and aggregate presence -/

/-- C4: raising the minimum-headcount threshold never adds an individually
shown team (the t2-shown set is contained in the t1-shown set when
t1 ≤ t2), and on non-empty input the output always contains a row labelled
"ALL", whatever the threshold. -/
theorem c4_threshold_monotone (data : List TeamRow) (t1 t2 : ℚ) (h12 : t1 ≤ t2) :
    (∀ p, p ∈ shownTeams data t2 → p ∈ shownTeams data t1)
    ∧ (data ≠ [] →
        ∀ t : ℚ, ∃ lr ∈ apply_team_size_filter data t, lr.team_label = "ALL") := by
  constructor
  · intro p hp
    unfold shownTeams at hp ⊢
    rcases List.mem_map.1 hp with ⟨lr, hlr, rfl⟩
    rcases List.mem_filter.1 hlr with ⟨hout, hlab⟩
    obtain ⟨hrd, hrq, _⟩ := team_of_mem_apply hout (of_decide_eq_true hlab)
    have hq1 := qualifyingTeams_mono h12 hrq
    refine List.mem_map.2 ⟨⟨teamLabel lr.row, lr.row⟩,
      List.mem_filter.2 ⟨mem_apply_of_team hrd hq1, ?_⟩, rfl⟩
    exact decide_eq_true (teamLabel_ne_ALL lr.row)
  · intro hdata t
    obtain ⟨a, arest, ha⟩ : ∃ a arest, aggregate_team_kpis data = a :: arest := by
      rcases hagg : aggregate_team_kpis data with _ | ⟨a, arest⟩
      · exact absurd hagg (aggregate_ne_nil hdata)
      · exact ⟨a, arest, rfl⟩
    have hmem : LabeledRow.mk "ALL" a
        ∈ (aggregate_team_kpis data).map (fun r => LabeledRow.mk "ALL" r) :=
      List.mem_map_of_mem _ (ha ▸ List.mem_cons_self a arest)
    refine ⟨⟨"ALL", a⟩, ?_, rfl⟩
    simp only [apply_team_size_filter]
    rw [if_neg (by simpa using hdata)]
    by_cases hq : qualifyingTeams data t = []
    · rw [if_pos (by simpa using hq)]
      exact hmem
    · rw [if_neg (by simpa using hq)]
      exact mem_sortLe.2 (List.mem_append_left _ hmem)

/-- C4 witness: on `wC4` (teams of headcount 10 and 3) with thresholds
3 ≤ 5, the teams shown at 5 are a subset of those shown at 3, and the
"ALL" row is present; concretely the shown sets are [("T1","G")] and
[("T1","G"), ("T2","G")]. -/
theorem c4_threshold_monotone_witness :
    ((3 : ℚ) ≤ 5)
    ∧ ((∀ p, p ∈ shownTeams wC4 5 → p ∈ shownTeams wC4 3)
        ∧ (wC4 ≠ [] →
            ∀ t : ℚ, ∃ lr ∈ apply_team_size_filter wC4 t, lr.team_label = "ALL"))
    ∧ shownTeams wC4 5 = [("T1", "G")]
    ∧ shownTeams wC4 3 = [("T1", "G"), ("T2", "G")] :=
  ⟨by decide, c4_threshold_monotone wC4 3 5 (by decide), by decide, by decide⟩

/-! ## Claim C5 — minimum-observation exclusion in `prepare_rca_data` -/

/-- Under non-degenerate inputs (some effect rows, non-empty PPL table),
the node-table names are exactly the allow-listed columns whose cleaned
series has at least 7 observations. -/
theorem prepare_node_names {ppl : List TeamRow} {domain : List DomainRow}
    (hdom : effectSelect domain ≠ []) (hppl : ppl ≠ []) :
    (prepare_rca_data ppl domain).node_tables.map Prod.fst
      = pplCorrelatableModeled.filter
          (fun c => 7 ≤ (nodeSeries (aggregate_team_kpis ppl) c).length) := by
  simp only [prepare_rca_data]
  rw [if_neg (by simpa using hdom), if_neg (by simpa using aggregate_ne_nil hppl)]
  rw [List.map_map]
  exact List.map_id _

/-- C5: for any inputs with a usable effect table and non-empty PPL data,
an allow-listed candidate-cause KPI whose cleaned series has exactly 6
observations is absent from the node tables, while one with at least 7
observations is present. -/
theorem c5_min_observations (ppl : List TeamRow) (domain : List DomainRow) (c : String)
    (hc : c ∈ pplCorrelatableModeled)
    (hdom : effectSelect domain ≠ []) (hppl : ppl ≠ []) :
    ((nodeSeries (aggregate_team_kpis ppl) c).length = 6 →
        c ∉ (prepare_rca_data ppl domain).node_tables.map Prod.fst)
    ∧ (7 ≤ (nodeSeries (aggregate_team_kpis ppl) c).length →
        c ∈ (prepare_rca_data ppl domain).node_tables.map Prod.fst) := by
  rw [prepare_node_names hdom hppl]
  constructor
  · intro h6 hmem
    rcases List.mem_filter.1 hmem with ⟨_, hlen⟩
    have h7 := of_decide_eq_true hlen
    omega
  · intro h7
    exact List.mem_filter.2 ⟨hc, decide_eq_true h7⟩

/-- C5 witness: on seven months of data, team_health_score (7 non-null
observations) is retained as a node table while mobility_score (6
non-null observations) is excluded. -/
theorem c5_min_observations_witness :
    ("team_health_score" ∈ pplCorrelatableModeled)
    ∧ (effectSelect wC5dom ≠ [])
    ∧ (wC5ppl ≠ [])
    ∧ (nodeSeries (aggregate_team_kpis wC5ppl) "team_health_score").length = 7
    ∧ (nodeSeries (aggregate_team_kpis wC5ppl) "mobility_score").length = 6
    ∧ "team_health_score" ∈ (prepare_rca_data wC5ppl wC5dom).node_tables.map Prod.fst
    ∧ "mobility_score" ∉ (prepare_rca_data wC5ppl wC5dom).node_tables.map Prod.fst := by
  have h7 : (nodeSeries (aggregate_team_kpis wC5ppl) "team_health_score").length = 7 := by
    norm_num [nodeSeries, colValue, aggregate_team_kpis, monthsSorted, monthGroup,
      aggMonth, weightedKpi, roundTo, roundHalfEven, sortLe, insertLe, wC5ppl, List.dedup,
      List.filterMap_cons, List.filterMap_nil]
  have h6 : (nodeSeries (aggregate_team_kpis wC5ppl) "mobility_score").length = 6 := by
    norm_num [nodeSeries, colValue, aggregate_team_kpis, monthsSorted, monthGroup,
      aggMonth, weightedKpi, roundTo, roundHalfEven, sortLe, insertLe, wC5ppl, List.dedup,
      List.filterMap_cons, List.filterMap_nil]
  refine ⟨by decide, by decide, by decide, h7, h6, ?_, ?_⟩
  · exact (c5_min_observations wC5ppl wC5dom "team_health_score"
      (by decide) (by decide) (by decide)).2 (le_of_eq h7.symm)
  · exact (c5_min_observations wC5ppl wC5dom "mobility_score"
      (by decide) (by decide) (by decide)).1 h6

/-! ## Claim C6 — signal-strength classification -/

theorem interactiveSignal_some (v : ℚ) :
    interactiveSignal (some v)
      = if 3/10 < v then "***" else if 1/10 < v then "**" else "*" := by
  simp only [interactiveSignal, eeGT]
  by_cases h3 : (3/10 : ℚ) < v <;> by_cases h1 : (1/10 : ℚ) < v <;> simp [h3, h1]

/-- Row-level agreement between the batch counter's weak-tier test
(`fillna(-1)` then `ee ≤ 0.1`) and the interactive classifier. -/
theorem tier1_pointwise (e : Option ℚ) :
    decide (fillNegOne e ≤ 1/10) = (interactiveSignal e == "*") := by
  cases e with
  | none =>
      rw [decide_eq_true (show fillNegOne none ≤ (1:ℚ)/10 by norm_num [fillNegOne])]
      decide
  | some v =>
      rw [interactiveSignal_some]
      by_cases h3 : (3/10 : ℚ) < v
      · rw [if_pos h3,
          decide_eq_false (show ¬ fillNegOne (some v) ≤ 1/10 by
            simp only [fillNegOne, Option.getD]; linarith)]
        decide
      · by_cases h1 : (1/10 : ℚ) < v
        · rw [if_neg h3, if_pos h1,
            decide_eq_false (show ¬ fillNegOne (some v) ≤ 1/10 by
              simp only [fillNegOne, Option.getD]; linarith)]
          decide
        · rw [if_neg h3, if_neg h1,
            decide_eq_true (show fillNegOne (some v) ≤ 1/10 by
              simp only [fillNegOne, Option.getD]; linarith)]
          decide

/-- Row-level agreement for the moderate tier. -/
theorem tier2_pointwise (e : Option ℚ) :
    (decide (1/10 < fillNegOne e) && decide (fillNegOne e ≤ 3/10))
      = (interactiveSignal e == "**") := by
  cases e with
  | none =>
      rw [decide_eq_false (show ¬ ((1:ℚ)/10 < fillNegOne none) by norm_num [fillNegOne])]
      decide
  | some v =>
      rw [interactiveSignal_some]
      by_cases h3 : (3/10 : ℚ) < v
      · rw [if_pos h3,
          decide_eq_false (show ¬ fillNegOne (some v) ≤ 3/10 by
            simp only [fillNegOne, Option.getD]; linarith),
          Bool.and_false]
        decide
      · by_cases h1 : (1/10 : ℚ) < v
        · rw [if_neg h3, if_pos h1,
            decide_eq_true (show (1:ℚ)/10 < fillNegOne (some v) by
              simp only [fillNegOne, Option.getD]; linarith),
            decide_eq_true (show fillNegOne (some v) ≤ 3/10 by
              simp only [fillNegOne, Option.getD]; linarith)]
          decide
        · rw [if_neg h3, if_neg h1,
            decide_eq_false (show ¬ ((1:ℚ)/10 < fillNegOne (some v)) by
              simp only [fillNegOne, Option.getD]; linarith),
            Bool.false_and]
          decide

/-- Row-level agreement for the strong tier. -/
theorem tier3_pointwise (e : Option ℚ) :
    decide (3/10 < fillNegOne e) = (interactiveSignal e == "***") := by
  cases e with
  | none =>
      rw [decide_eq_false (show ¬ ((3:ℚ)/10 < fillNegOne none) by norm_num [fillNegOne])]
      decide
  | some v =>
      rw [interactiveSignal_some]
      by_cases h3 : (3/10 : ℚ) < v
      · rw [if_pos h3,
          decide_eq_true (show (3:ℚ)/10 < fillNegOne (some v) by
            simp only [fillNegOne, Option.getD]; linarith)]
        decide
      · by_cases h1 : (1/10 : ℚ) < v
        · rw [if_neg h3, if_pos h1,
            decide_eq_false (show ¬ ((3:ℚ)/10 < fillNegOne (some v)) by
              simp only [fillNegOne, Option.getD]; linarith)]
          decide
        · rw [if_neg h3, if_neg h1,
            decide_eq_false (show ¬ ((3:ℚ)/10 < fillNegOne (some v)) by
              simp only [fillNegOne, Option.getD]; linarith)]
          decide

/-- C6: the boundary behavior of the interactive signal classifier
(0.1 → "*", 0.3 → "**", 0.31 → "***", NaN → "*"), the exact band
characterization, and the agreement of the batch counter
`_count_causal_signals` with the interactive rule on every result set. -/
theorem c6_signal_classification :
    interactiveSignal (some (1/10)) = "*"
    ∧ interactiveSignal (some (3/10)) = "**"
    ∧ interactiveSignal (some (31/100)) = "***"
    ∧ interactiveSignal none = "*"
    ∧ (∀ v : ℚ,
        (interactiveSignal (some v) = "***" ↔ 3/10 < v)
        ∧ (interactiveSignal (some v) = "**" ↔ (1/10 < v ∧ v ≤ 3/10))
        ∧ (interactiveSignal (some v) = "*" ↔ v ≤ 1/10))
    ∧ (∀ ees : List (Option ℚ), countCausalSignals ees
        = ((ees.filter (fun e => interactiveSignal e == "*")).length,
           (ees.filter (fun e => interactiveSignal e == "**")).length,
           (ees.filter (fun e => interactiveSignal e == "***")).length)) := by
  refine ⟨?_, ?_, ?_, ?_, ?_, ?_⟩
  · norm_num [interactiveSignal, eeGT]
  · norm_num [interactiveSignal, eeGT]
  · norm_num [interactiveSignal, eeGT]
  · norm_num [interactiveSignal, eeGT]
  · intro v
    rw [interactiveSignal_some]
    by_cases h3 : (3/10 : ℚ) < v
    · have h1 : (1/10 : ℚ) < v := by linarith
      rw [if_pos h3]
      exact ⟨⟨fun _ => h3, fun _ => rfl⟩,
        ⟨fun h => absurd h (by decide), fun h => absurd h.2 (not_le.2 h3)⟩,
        ⟨fun h => absurd h (by decide), fun h => absurd h (not_le.2 h1)⟩⟩
    · by_cases h1 : (1/10 : ℚ) < v
      · rw [if_neg h3, if_pos h1]
        exact ⟨⟨fun h => absurd h (by decide), fun h => absurd h h3⟩,
          ⟨fun _ => ⟨h1, not_lt.1 h3⟩, fun _ => rfl⟩,
          ⟨fun h => absurd h (by decide), fun h => absurd h (not_le.2 h1)⟩⟩
      · rw [if_neg h3, if_neg h1]
        exact ⟨⟨fun h => absurd h (by decide), fun h => absurd h h3⟩,
          ⟨fun h => absurd h (by decide), fun h => absurd h.1 h1⟩,
          ⟨fun _ => not_lt.1 h1, fun _ => rfl⟩⟩
  · intro ees
    unfold countCausalSignals
    rw [funext tier1_pointwise, funext tier2_pointwise, funext tier3_pointwise]

/-! ## Order properties of the code-point string comparison -/

theorem charListLt_irrefl : ∀ l : List Char, charListLt l l = false := by
  intro l
  induction l with
  | nil => rfl
  | cons a as ih =>
      simp only [charListLt]
      have hirr : ¬ a.val < a.val := by
        intro hh
        exact absurd (show a.val.toNat < a.val.toNat from hh) (Nat.lt_irrefl _)
      rw [if_neg hirr, if_neg hirr]
      exact ih

theorem charListLt_connected :
    ∀ l1 l2 : List Char, charListLt l1 l2 = false → charListLt l2 l1 = false → l1 = l2 := by
  intro l1
  induction l1 with
  | nil =>
      intro l2 h1 _
      cases l2 with
      | nil => rfl
      | cons b bs => simp [charListLt] at h1
  | cons a as ih =>
      intro l2 h1 h2
      cases l2 with
      | nil => simp [charListLt] at h2
      | cons b bs =>
          simp only [charListLt] at h1 h2
          by_cases hab : a.val < b.val
          · rw [if_pos hab] at h1
            exact absurd h1 (by simp)
          · by_cases hba : b.val < a.val
            · rw [if_pos hba] at h2
              exact absurd h2 (by simp)
            · rw [if_neg hab, if_neg hba] at h1
              rw [if_neg hba, if_neg hab] at h2
              have hval : a.val = b.val :=
                UInt32.le_antisymm (UInt32.not_lt.1 hba) (UInt32.not_lt.1 hab)
              rw [Char.ext hval, ih bs h1 h2]

theorem charListLt_asymm :
    ∀ l1 l2 : List Char, charListLt l1 l2 = true → charListLt l2 l1 = false := by
  intro l1
  induction l1 with
  | nil =>
      intro l2 h
      cases l2 with
      | nil => simp [charListLt] at h
      | cons b bs => rfl
  | cons a as ih =>
      intro l2 h
      cases l2 with
      | nil => simp [charListLt] at h
      | cons b bs =>
          simp only [charListLt] at h ⊢
          by_cases hab : a.val < b.val
          · have hba : ¬ b.val < a.val := by
              have h1 : a.val.toNat < b.val.toNat := hab
              intro hba
              have h2 : b.val.toNat < a.val.toNat := hba
              omega
            rw [if_neg hba, if_pos hab]
          · rw [if_neg hab] at h
            by_cases hba : b.val < a.val
            · rw [if_pos hba] at h
              exact absurd h (by simp)
            · rw [if_neg hba] at h
              rw [if_neg hba, if_neg hab]
              exact ih bs h

theorem charListLt_trans :
    ∀ l1 l2 l3 : List Char,
      charListLt l1 l2 = true → charListLt l2 l3 = true → charListLt l1 l3 = true := by
  intro l1
  induction l1 with
  | nil =>
      intro l2 l3 h1 h2
      cases l2 with
      | nil => simp [charListLt] at h1
      | cons b bs =>
          cases l3 with
          | nil => simp [charListLt] at h2
          | cons c cs => rfl
  | cons a as ih =>
      intro l2 l3 h1 h2
      cases l2 with
      | nil => simp [charListLt] at h1
      | cons b bs =>
          cases l3 with
          | nil => simp [charListLt] at h2
          | cons c cs =>
              simp only [charListLt] at h1 h2 ⊢
              by_cases hab : a.val < b.val
              · by_cases hbc : b.val < c.val
                · have hac : a.val < c.val := by
                    have x1 : a.val.toNat < b.val.toNat := hab
                    have x2 : b.val.toNat < c.val.toNat := hbc
                    show a.val.toNat < c.val.toNat
                    omega
                  rw [if_pos hac]
                · rw [if_neg hbc] at h2
                  by_cases hcb : c.val < b.val
                  · rw [if_pos hcb] at h2
                    exact absurd h2 (by simp)
                  · have hval : b.val = c.val :=
                      UInt32.le_antisymm (UInt32.not_lt.1 hcb) (UInt32.not_lt.1 hbc)
                    rw [if_pos (hval ▸ hab)]
              · rw [if_neg hab] at h1
                by_cases hba : b.val < a.val
                · rw [if_pos hba] at h1
                  exact absurd h1 (by simp)
                · rw [if_neg hba] at h1
                  have hvab : a.val = b.val :=
                    UInt32.le_antisymm (UInt32.not_lt.1 hba) (UInt32.not_lt.1 hab)
                  rw [Char.ext hvab]
                  by_cases hbc : b.val < c.val
                  · rw [if_pos hbc]
                  · rw [if_neg hbc] at h2
                    by_cases hcb : c.val < b.val
                    · rw [if_pos hcb] at h2
                      exact absurd h2 (by simp)
                    · rw [if_neg hcb] at h2
                      rw [if_neg hbc, if_neg hcb]
                      exact ih bs cs h1 h2

theorem strLt_irrefl (s : String) : strLt s s = false := charListLt_irrefl s.data

theorem strLt_asymm {s t : String} (h : strLt s t = true) : strLt t s = false :=
  charListLt_asymm s.data t.data h

theorem strLt_connected {s t : String} (h1 : strLt s t = false)
    (h2 : strLt t s = false) : s = t := by
  cases s with
  | mk d1 =>
      cases t with
      | mk d2 => exact congrArg String.mk (charListLt_connected d1 d2 h1 h2)

theorem strLt_trans {s t u : String} (h1 : strLt s t = true)
    (h2 : strLt t u = true) : strLt s u = true :=
  charListLt_trans s.data t.data u.data h1 h2

theorem strLt_cases (s t : String) :
    strLt s t = true ∨ strLt t s = true ∨ s = t := by
  cases h1 : strLt s t with
  | true => exact Or.inl rfl
  | false =>
      cases h2 : strLt t s with
      | true => exact Or.inr (Or.inl rfl)
      | false => exact Or.inr (Or.inr (strLt_connected h1 h2))

/-! ## Order properties of the result comparator -/

theorem eeDescLe_total (x y : Option ℚ) : eeDescLe x y = true ∨ eeDescLe y x = true := by
  rcases x with _ | a <;> rcases y with _ | b
  · exact Or.inl rfl
  · exact Or.inr rfl
  · exact Or.inl rfl
  · rcases le_total b a with h | h
    · exact Or.inl (decide_eq_true h)
    · exact Or.inr (decide_eq_true h)

theorem eeDescLe_trans {x y z : Option ℚ} (h1 : eeDescLe x y = true)
    (h2 : eeDescLe y z = true) : eeDescLe x z = true := by
  rcases x with _ | a <;> rcases y with _ | b <;> rcases z with _ | c <;>
    simp_all [eeDescLe]
  exact le_trans h2 h1

theorem resultLe_total (a b : ResultRow) :
    resultLe a b = true ∨ resultLe b a = true := by
  unfold resultLe
  rcases strLt_cases a.id_kpi_code b.id_kpi_code with h | h | h
  · left
    rw [if_pos h]
  · right
    rw [if_pos h]
  · rw [h, strLt_irrefl]
    simp only [Bool.false_eq_true, if_false]
    rcases lt_trichotomy a.min_p_value b.min_p_value with hp | hp | hp
    · left
      rw [if_pos hp]
    · rw [hp]
      simp only [lt_irrefl, if_false]
      exact eeDescLe_total _ _
    · right
      rw [if_neg (lt_asymm hp), if_pos hp]

theorem resultLe_trans (a b c : ResultRow) (h1 : resultLe a b = true)
    (h2 : resultLe b c = true) : resultLe a c = true := by
  unfold resultLe at h1 h2 ⊢
  rcases strLt_cases a.id_kpi_code b.id_kpi_code with hab | hab | hab
  · rcases strLt_cases b.id_kpi_code c.id_kpi_code with hbc | hbc | hbc
    · rw [if_pos (strLt_trans hab hbc)]
    · rw [if_pos hbc, strLt_asymm hbc] at h2
      simp at h2
    · rw [if_pos (hbc ▸ hab)]
  · rw [if_pos hab, strLt_asymm hab] at h1
    simp at h1
  · rw [hab]
    rw [hab, strLt_irrefl] at h1
    simp only [Bool.false_eq_true, if_false] at h1
    rcases strLt_cases b.id_kpi_code c.id_kpi_code with hbc | hbc | hbc
    · rw [if_pos hbc]
    · rw [if_pos hbc, strLt_asymm hbc] at h2
      simp at h2
    · rw [hbc, strLt_irrefl]
      simp only [Bool.false_eq_true, if_false]
      rw [hbc, strLt_irrefl] at h2
      simp only [Bool.false_eq_true, if_false] at h2
      rcases lt_trichotomy a.min_p_value b.min_p_value with hp1 | hp1 | hp1
      · rcases lt_trichotomy b.min_p_value c.min_p_value with hp2 | hp2 | hp2
        · rw [if_pos (lt_trans hp1 hp2)]
        · rw [if_pos (hp2 ▸ hp1)]
        · rw [if_neg (lt_asymm hp2), if_pos hp2] at h2
          simp at h2
      · rw [hp1] at h1
        simp only [lt_self_iff_false, if_false] at h1
        rw [hp1]
        rcases lt_trichotomy b.min_p_value c.min_p_value with hp2 | hp2 | hp2
        · rw [if_pos hp2]
        · rw [hp2] at h2 ⊢
          simp only [lt_self_iff_false, if_false] at h2 ⊢
          exact eeDescLe_trans h1 h2
        · rw [if_neg (lt_asymm hp2), if_pos hp2] at h2
          simp at h2
      · rw [if_neg (lt_asymm hp1), if_pos hp1] at h1
        simp at h1

/-! ## Claim C7 — result ranking order -/

/-- C7: `run_correlation`'s post-processing returns a permutation of the
RCA library's result rows that is sorted by (effect KPI code ascending,
minimum Granger p-value ascending, explained entropy descending); on the
spec's example the two KPI_A rows come first with p=0.01 before p=0.03,
then the KPI_B row. -/
theorem c7_result_sorting :
    (∀ result : List ResultRow,
        (run_correlation_post result).Perm result
        ∧ (run_correlation_post result).Pairwise (fun a b => resultLe a b = true))
    ∧ run_correlation_post [rB05, rA03, rA01] = [rA01, rA03, rB05] := by
  constructor
  · intro result
    by_cases h : result = []
    · subst h
      exact ⟨List.Perm.refl _, List.Pairwise.nil⟩
    · unfold run_correlation_post
      rw [if_neg (by simpa using h)]
      exact ⟨sortLe_perm _ _, pairwise_sortLe resultLe_total resultLe_trans _⟩
  · have f1 : resultLe rA03 rA01 = false := by
      unfold resultLe
      rw [show rA03.id_kpi_code = "KPI_A" from rfl,
          show rA01.id_kpi_code = "KPI_A" from rfl, strLt_irrefl]
      simp only [Bool.false_eq_true, if_false]
      rw [if_neg (by norm_num [rA03, rA01]), if_pos (by norm_num [rA03, rA01])]
    have f2 : resultLe rB05 rA01 = false := by decide
    have f3 : resultLe rB05 rA03 = false := by decide
    unfold run_correlation_post
    rw [if_neg (by simp)]
    simp [sortLe, insertLe, f1, f2, f3]

/-! ## Claim C8 — empty effect table: return, not raise -/

/-- C8 (amended): whenever the effect-table selection (bu_aggregate rows,
else per-cluster "domain" rows) is empty, `prepare_rca_data` RETURNS the
empty preparation — a config with no node tables and an empty frame dict —
rather than raising; the source logs a warning and returns at line 745. -/
theorem c8_empty_effect_returns (ppl : List TeamRow) (domain : List DomainRow)
    (h : effectSelect domain = []) :
    prepare_rca_data ppl domain = ⟨[], []⟩ := by
  simp only [prepare_rca_data]
  rw [h]
  rfl

/-- C8 counterexample: at a concrete non-degenerate PPL table and a domain
table with no bu_aggregate and no per-cluster rows, `prepare_rca_data`
evaluates to the empty preparation — it yields a value instead of the
failure the claim asserts. -/
theorem c8_counterexample :
    effectSelect cexC8dom = []
    ∧ prepare_rca_data cexC8ppl cexC8dom = ⟨[], []⟩
    ∧ (prepare_rca_data cexC8ppl cexC8dom).node_tables = [] := by
  refine ⟨by decide, by decide, by decide⟩

/-- C8 witness for the amended theorem: the hypothesis holds at the
concrete inputs of the counterexample. -/
theorem c8_empty_effect_returns_witness :
    effectSelect cexC8dom = [] ∧ prepare_rca_data cexC8ppl cexC8dom = ⟨[], []⟩ :=
  ⟨by decide, c8_empty_effect_returns cexC8ppl cexC8dom (by decide)⟩

/-! ## Claim C9 — batch-estimator CSV resumability -/

theorem strLe_total (s t : String) : strLe s t = true ∨ strLe t s = true := by
  unfold strLe
  cases h : strLt t s with
  | false => exact Or.inl rfl
  | true =>
      right
      rw [strLt_asymm h]
      rfl

theorem strLe_trans {s t u : String} (h1 : strLe s t = true)
    (h2 : strLe t u = true) : strLe s u = true := by
  unfold strLe at h1 h2 ⊢
  have h1' : strLt t s = false := by simpa using h1
  have h2' : strLt u t = false := by simpa using h2
  cases hus : strLt u s with
  | false => rfl
  | true =>
      exfalso
      rcases strLt_cases s t with hst | hst | hst
      · rw [strLt_trans hus hst] at h2'
        simp at h2'
      · rw [hst] at h1'
        simp at h1'
      · rw [hst] at hus
        rw [hus] at h2'
        simp at h2'

theorem mgrLe_total (a b : MgrRow) : mgrLe a b = true ∨ mgrLe b a = true :=
  strLe_total _ _

theorem mgrLe_trans (a b c : MgrRow) (h1 : mgrLe a b = true)
    (h2 : mgrLe b c = true) : mgrLe a c = true :=
  strLe_trans h1 h2

theorem countP_eq_one_of_nodup {l : List String} {c : String}
    (hnd : l.Nodup) (hc : c ∈ l) :
    l.countP (fun x => decide (x = c)) = 1 := by
  induction l with
  | nil => simp at hc
  | cons a l ih =>
      rcases List.nodup_cons.1 hnd with ⟨ha, hnd'⟩
      rcases List.mem_cons.1 hc with rfl | hc'
      · rw [List.countP_cons_of_pos _ _ (by simp)]
        have hz : l.countP (fun x => decide (x = c)) = 0 := by
          rw [List.countP_eq_zero]
          intro x hx
          simp only [decide_eq_true_eq]
          intro hxa
          exact ha (hxa ▸ hx)
        omega
      · have hac : a ≠ c := by
          intro hh
          exact ha (hh ▸ hc')
        rw [List.countP_cons_of_neg _ _ (by simpa using hac)]
        exact ih hnd' hc'

/-- C9: with an output file, a second batch run over the same manager set
re-processes nothing (its to-do list is empty), the final table holds each
manager's row exactly once, and every run writes back the old rows merged
with the newly processed ones, sorted by full manager identifier.
Hypotheses: the per-manager pipeline records the manager's own identifier,
identifiers are non-empty, and the manager set has no duplicates. -/
theorem c9_batch_resumable (allCodes : List String) (process : String → MgrRow)
    (hproc : ∀ c, (process c).manager_code_full = c)
    (hne : ∀ c ∈ allCodes, c ≠ "")
    (hnd : allCodes.Nodup) :
    batchTodo allCodes (runBatch allCodes [] process) = []
    ∧ (∀ c ∈ allCodes,
        ((runBatch allCodes (runBatch allCodes [] process) process).filter
            (fun r => decide (r.manager_code_full = c))).length = 1)
    ∧ (∀ existing : List MgrRow,
        (runBatch allCodes existing process).Perm
            (existing ++ (batchTodo allCodes existing).map process)
        ∧ (runBatch allCodes existing process).Pairwise
            (fun a b => mgrLe a b = true)) := by
  have htodo0 : batchTodo allCodes [] = allCodes := by
    unfold batchTodo
    apply List.filter_eq_self.2
    intro a _
    exact decide_eq_true (by simp [existingCodes])
  have hmem : ∀ c ∈ allCodes, c ∈ existingCodes (runBatch allCodes [] process) := by
    intro c hc
    unfold existingCodes
    refine List.mem_map.2 ⟨process c, List.mem_filter.2 ⟨?_, ?_⟩, hproc c⟩
    · unfold runBatch
      refine mem_sortLe.2 (List.mem_append_right _ ?_)
      refine List.mem_map_of_mem _ ?_
      rw [htodo0]
      exact hc
    · exact decide_eq_true (by rw [hproc c]; exact hne c hc)
  have htodo2 : batchTodo allCodes (runBatch allCodes [] process) = [] := by
    apply List.filter_eq_nil_iff.2
    intro c hc
    simp only [decide_eq_true_eq]
    intro hnot
    exact hnot (hmem c hc)
  refine ⟨htodo2, ?_, ?_⟩
  · intro c hc
    have hp1 : (runBatch allCodes (runBatch allCodes [] process) process).Perm
        (runBatch allCodes [] process) := by
      show (sortLe mgrLe ((runBatch allCodes [] process)
          ++ (batchTodo allCodes (runBatch allCodes [] process)).map process)).Perm
        (runBatch allCodes [] process)
      rw [htodo2]
      simp only [List.map_nil, List.append_nil]
      exact sortLe_perm _ _
    have hp2 : (runBatch allCodes [] process).Perm (allCodes.map process) := by
      show (sortLe mgrLe (([] : List MgrRow)
          ++ (batchTodo allCodes []).map process)).Perm (allCodes.map process)
      rw [htodo0, List.nil_append]
      exact sortLe_perm _ _
    have hp := hp1.trans hp2
    rw [← List.countP_eq_length_filter, hp.countP_eq, List.countP_map]
    have hcongr : ∀ x ∈ allCodes,
        (((fun r => decide (r.manager_code_full = c)) ∘ process) x = true
          ↔ (fun y => decide (y = c)) x = true) := by
      intro x _
      simp [hproc x]
    rw [List.countP_congr hcongr]
    exact countP_eq_one_of_nodup hnd hc
  · intro existing
    exact ⟨sortLe_perm _ _, pairwise_sortLe mgrLe_total mgrLe_trans _⟩

/-- C9 witness: two managers "b", "a" with a stub pipeline — the second
run's to-do list is empty, each manager appears exactly once, and the
written table is the sorted merge. -/
theorem c9_batch_resumable_witness :
    (∀ c ∈ (["b", "a"] : List String), c ≠ "")
    ∧ (["b", "a"] : List String).Nodup
    ∧ runBatch ["b", "a"] [] wC9process = [⟨"a", "ok"⟩, ⟨"b", "ok"⟩]
    ∧ (batchTodo ["b", "a"] (runBatch ["b", "a"] [] wC9process) = []
        ∧ (∀ c ∈ (["b", "a"] : List String),
            ((runBatch ["b", "a"] (runBatch ["b", "a"] [] wC9process) wC9process).filter
                (fun r => decide (r.manager_code_full = c))).length = 1)
        ∧ (∀ existing : List MgrRow,
            (runBatch ["b", "a"] existing wC9process).Perm
                (existing ++ (batchTodo ["b", "a"] existing).map wC9process)
            ∧ (runBatch ["b", "a"] existing wC9process).Pairwise
                (fun a b => mgrLe a b = true))) :=
  ⟨by decide, by decide, by decide,
   c9_batch_resumable ["b", "a"] wC9process (fun c => rfl) (by decide) (by decide)⟩

end PplAgent
